import Mathlib

/-!
Verification of the window/event-loop support module (`src/support.rs`).

The module builds a window, an imgui context, a winit platform adapter and a
glium renderer (`init`), then runs a winit event loop (`System::main_loop`)
dispatching on the incoming event.  We shallow-embed:

* the per-event callback of `main_loop` as a pure step function
  `stepEvent` on an explicit state, returning the successor state together
  with a trace of the external calls the branch performs, the external
  `App` collaborator being an abstract record of functions;
* the host event-loop driver (winit `EventLoop::run`) as `runEvents`,
  which stops dispatching once the loop-control flag is `Exit`;
* the title computation of `init` at the byte level (`initTitle`),
  including Rust `Path::file_name` (Unix semantics) and the UTF-8 validity
  check behind `OsStr::to_str`;
* the DPI-override branch of `init` (`dpiModeFromEnv`), with the standard
  float parser left abstract and `panic!` modelled as `Except.error`;
* `load_icon` and the icon argument of the window builder, with the
  `stb_image` decoder (repository code outside the sources at hand)
  modelled from the spec as producing an RGBA image.

Machine integers are `Nat`; the `u32 as f32` cast in the resize branch is
modelled exactly by `u32ToF32` (round to nearest, ties to even, 24-bit
significand), returning the integer value of the resulting float.
-/

/-- Loop-control flag of the host event loop (winit `ControlFlow`). -/
inductive ControlFlow : Type
| Poll
| Wait
| Exit
deriving DecidableEq

/-- The events dispatched on by `main_loop`'s match: the four specialised
winit events, the resize event with its physical pixel size, and an opaque
payload for every event reaching the wildcard arm. -/
inductive GEvent : Type
| newEvents
| mainEventsCleared
| redrawRequested
| closeRequested
| resized (width height : Nat)
| other (payload : Nat)
deriving DecidableEq

/-- External calls performed by a branch of the `main_loop` callback, in
program order.  `appUpdate` records the value of the `run` flag passed to
`App::update`; `appHandleEvent` records the boolean that call returned. -/
inductive Effect : Type
| updateDeltaTime (dt : Nat)
| prepareFrame
| requestRedraw
| newFrame
| appUpdate (run : Bool)
| clearColor
| prepareRender
| renderDrawData
| finishFrame
| processDragDrop
| appHandleEvent (consumed : Bool)
| platformHandleEvent
deriving DecidableEq

/-- The external `App` collaborator (`crate::app::App`), abstract over its
state type `α`.  `update` receives the current value of the mutable `run`
flag and returns its value after the call; `handleEvent` returns the
boolean `main_loop` tests before forwarding to the platform adapter. -/
structure App (α : Type) where
  update : α → Bool → α × Bool
  handleEvent : α → Nat → α × Bool
  processDragDrop : α → α

/-- The mutable state owned by the `main_loop` closure: the loop-control
flag, the `last_frame` instant, and the imgui io state written by the
callback (delta time and display size; sizes store the value of the `f32`
actually written). -/
structure LoopState : Type where
  controlFlow : ControlFlow
  lastFrame : Nat
  deltaTime : Nat
  displaySize : Nat × Nat
deriving DecidableEq

/-- Combined state threaded through the event loop: the closure state of
`main_loop` plus the state of the `App` collaborator. -/
structure World (α : Type) : Type where
  loop : LoopState
  app : α

/-- For `n` in `u32` range with `2^24 ≤ n`, the number of low bits that do
not fit in the 24-bit `f32` significand (the bit length of `n` minus 24). -/
def f32Shift (n : Nat) : Nat :=
  if n < 2 ^ 25 then 1
  else if n < 2 ^ 26 then 2
  else if n < 2 ^ 27 then 3
  else if n < 2 ^ 28 then 4
  else if n < 2 ^ 29 then 5
  else if n < 2 ^ 30 then 6
  else if n < 2 ^ 31 then 7
  else 8

/-- Value of the Rust cast `n as f32` for a `u32` input `n`, as a natural
number: round to nearest with ties to even at 24 bits of significand.
Inputs below `2^24` are exactly representable and unchanged. -/
def u32ToF32 (n : Nat) : Nat :=
  if n < 2 ^ 24 then n
  else
    let e := f32Shift n
    let q := n / 2 ^ e
    let r := n % 2 ^ e
    let half := 2 ^ (e - 1)
    let q1 := if half < r ∨ (r = half ∧ q % 2 = 1) then q + 1 else q
    q1 * 2 ^ e

/-- The trace of external calls of the `RedrawRequested` arm, in the order
of the source: `imgui.frame()`, `app.update(&mut run, ui)` with `run`
initialised to `true`, `target.clear_color_srgb`, `platform.prepare_render`,
`imgui.render()` fed to `renderer.render`, `target.finish()`, and finally
`app.process_drag_drop(imgui.io_mut())`. -/
def redrawTrace : List Effect :=
  [Effect.newFrame, Effect.appUpdate true, Effect.clearColor,
   Effect.prepareRender, Effect.renderDrawData, Effect.finishFrame,
   Effect.processDragDrop]

/-- One invocation of the `main_loop` callback (the closure passed to
`event_loop.run`) on event `e`, at wall-clock instant `now`.  Returns the
updated state and the trace of external calls.  The fallible external
calls (`prepare_frame`, `renderer.render`, `target.finish`) abort the
process on failure per the source's `expect`; the model follows the
successful path, which is the only one on which the callback returns. -/
def stepEvent {α : Type} (ap : App α) (now : Nat) (w : World α) :
    GEvent → World α × List Effect
| GEvent.newEvents =>
    ({ w with loop := { w.loop with
        deltaTime := now - w.loop.lastFrame,
        lastFrame := now } },
     [Effect.updateDeltaTime (now - w.loop.lastFrame)])
| GEvent.mainEventsCleared =>
    (w, [Effect.prepareFrame, Effect.requestRedraw])
| GEvent.redrawRequested =>
    let r := ap.update w.app true
    let cf := if r.2 then w.loop.controlFlow else ControlFlow.Exit
    ({ loop := { w.loop with controlFlow := cf },
       app := ap.processDragDrop r.1 },
     redrawTrace)
| GEvent.closeRequested =>
    ({ w with loop := { w.loop with controlFlow := ControlFlow.Exit } }, [])
| GEvent.resized width height =>
    ({ w with loop := { w.loop with
        displaySize := (u32ToF32 width, u32ToF32 height) } }, [])
| GEvent.other payload =>
    let r := ap.handleEvent w.app payload
    ({ w with app := r.1 },
     Effect.appHandleEvent r.2 ::
       (if r.2 then [] else [Effect.platformHandleEvent]))

/-- The host event-loop driver.  Modelled from the spec: once loop control
is set to exit, the hosting run primitive does not return control to the
callback, so no further event is dispatched.  Each pending event carries
the instant at which it is dispatched. -/
def runEvents {α : Type} (ap : App α) :
    World α → List (Nat × GEvent) → World α × List Effect
| w, [] => (w, [])
| w, (t, e) :: es =>
    if w.loop.controlFlow = ControlFlow.Exit then (w, [])
    else
      let r := stepEvent ap t w e
      let r2 := runEvents ap r.1 es
      (r2.1, r.2 ++ r2.2)

/-- An `App` whose `update` leaves the run flag unchanged and whose
`handleEvent` declines every event; used to instantiate theorems. -/
def idleApp : App Unit where
  update := fun a run => (a, run)
  handleEvent := fun a _ => (a, false)
  processDragDrop := fun a => a

/-- An `App` whose `update` clears the run flag and whose `handleEvent`
consumes every event; used to instantiate theorems. -/
def quitApp : App Unit where
  update := fun a _ => (a, false)
  handleEvent := fun a _ => (a, true)
  processDragDrop := fun a => a

/-- A concrete initial state for instantiating theorems. -/
def world0 : World Unit where
  loop := { controlFlow := ControlFlow.Poll, lastFrame := 0,
            deltaTime := 0, displaySize := (0, 0) }
  app := ()

/-! ## Title derivation in `init`

`init` computes the window title from its `&str` argument via
`Path::new(title).file_name()`: when the path has a file-name component,
the title is `file_name.to_str().unwrap()`, otherwise the argument itself.
Strings are modelled as their UTF-8 byte sequences (`List Nat`), the path
separator being the byte 47 (ASCII `/`, Unix semantics) and 46 the ASCII
dot. -/

/-- Splits a byte sequence at every occurrence of the separator byte,
keeping empty pieces (so `"a//b"` gives `["a", "", "b"]` and a trailing
separator produces a trailing empty piece). -/
def splitSep (sep : Nat) : List Nat → List (List Nat)
| [] => [[]]
| b :: rest =>
    if b = sep then [] :: splitSep sep rest
    else
      match splitSep sep rest with
      | [] => [[b]]
      | p :: ps => (b :: p) :: ps

/-- The `Normal` and `ParentDir` components of a Unix path, in order:
the pieces between separators that are neither empty nor the single dot.
Rust's `Path::components` additionally yields `RootDir`/`CurDir` at the
front only, so the last component of a path is the last element of this
list when the list is nonempty. -/
def pathParts (l : List Nat) : List (List Nat) :=
  (splitSep 47 l).filter (fun p => !(p.isEmpty || p == [46]))

/-- Rust `Path::file_name` (Unix semantics) on the UTF-8 bytes of the
path: the last component when it is a `Normal` component, i.e. the last
non-empty non-`"."` piece provided it exists and is not `".."`. -/
def fileName (l : List Nat) : Option (List Nat) :=
  match (pathParts l).getLast? with
  | none => none
  | some p => if p == [46, 46] then none else some p

/-- Whether `b` is a UTF-8 continuation byte. -/
def contB (b : Nat) : Bool := 0x80 ≤ b && b ≤ 0xBF

/-- Allowed second byte `c` after the leading byte `b` of a three-byte
UTF-8 sequence (excludes overlong forms and surrogates). -/
def second3 (b c : Nat) : Bool :=
  (b == 0xE0 && 0xA0 ≤ c && c ≤ 0xBF) ||
  (0xE1 ≤ b && b ≤ 0xEC && contB c) ||
  (b == 0xED && 0x80 ≤ c && c ≤ 0x9F) ||
  (0xEE ≤ b && b ≤ 0xEF && contB c)

/-- Allowed second byte `c` after the leading byte `b` of a four-byte
UTF-8 sequence (excludes overlong forms and code points above U+10FFFF). -/
def second4 (b c : Nat) : Bool :=
  (b == 0xF0 && 0x90 ≤ c && c ≤ 0xBF) ||
  (0xF1 ≤ b && b ≤ 0xF3 && contB c) ||
  (b == 0xF4 && 0x80 ≤ c && c ≤ 0x8F)

/-- Well-formed UTF-8 byte sequences, as checked by Rust's `str`
validation: a sequence of one- to four-byte scalar-value encodings. -/
def validUtf8 : List Nat → Bool
| [] => true
| b :: rest =>
    if b ≤ 0x7F then validUtf8 rest
    else
      match rest with
      | [] => false
      | c :: rest2 =>
          if 0xC2 ≤ b && b ≤ 0xDF && contB c then validUtf8 rest2
          else
            match rest2 with
            | [] => false
            | d :: rest3 =>
                if 0xE0 ≤ b && b ≤ 0xEF && second3 b c && contB d then
                  validUtf8 rest3
                else
                  match rest3 with
                  | [] => false
                  | e :: rest4 =>
                      if 0xF0 ≤ b && b ≤ 0xF4 && second4 b c && contB d
                          && contB e then
                        validUtf8 rest4
                      else false

/-- `OsStr::to_str`: succeeds exactly on valid UTF-8 (an `OsStr` obtained
from a path built over a `&str` is its byte sequence). -/
def osstrToStr (l : List Nat) : Option (List Nat) :=
  if validUtf8 l then some l else none

/-- The window title computed by `init` from the UTF-8 bytes of its
argument: the file-name component converted back with
`to_str().unwrap()` when present, the argument unchanged otherwise.
`none` models the `unwrap` panicking. -/
def initTitle (l : List Nat) : Option (List Nat) :=
  match fileName l with
  | some f => osstrToStr f
  | none => some l

/-- Written from the spec's words, for comparison with the code: the
"final path component" of a path — the last path component, where empty
pieces and single-dot pieces are not components. -/
def specFinalComponent (l : List Nat) : Option (List Nat) :=
  (pathParts l).getLast?

/-! ## DPI override in `init`

`init` reads `IMGUI_EXAMPLE_FORCE_DPI_FACTOR`; when present it parses it
as `f64`, using `HiDpiMode::Locked` on success and panicking on failure,
and uses `HiDpiMode::Default` when the variable is absent.  The standard
parser is abstract (parameter `parse`), the parsed type `α` standing for
`f64`; `Except.error` models the `panic!`. -/

/-- `imgui_winit_support::HiDpiMode`, abstract over the factor type. -/
inductive HiDpiMode (α : Type) : Type
| Default
| Rounded
| Locked (factor : α)
deriving DecidableEq

/-- The DPI-mode computation of `init`: `env` is the result of
`std::env::var` on the override variable (`none` when absent),
`parse` the standard `f64` parser. -/
def dpiModeFromEnv {ε α : Type} (env : Option String)
    (parse : String → Except ε α) : Except ε (HiDpiMode α) :=
  match env with
  | none => Except.ok HiDpiMode.Default
  | some s =>
      match parse s with
      | Except.ok f => Except.ok (HiDpiMode.Locked f)
      | Except.error e => Except.error e

/-! ## Icon loading in `init` -/

/-- Modelled from the spec: the `stb_image` decoder (repository code not
among the sources at hand) decodes the embedded bytes into an RGBA image,
so its pixel data has exactly `4 * width * height` bytes. -/
structure StbImage : Type where
  width : Nat
  height : Nat
  data : List Nat
  rgba : data.length = 4 * width * height

/-- A window icon as built by winit from RGBA data. -/
structure Icon : Type where
  width : Nat
  height : Nat
  data : List Nat
deriving DecidableEq

/-- winit `Icon::from_rgba`: succeeds exactly when the byte count matches
the dimensions (`BadIcon` otherwise). -/
def iconFromRgba (data : List Nat) (width height : Nat) : Option Icon :=
  if data.length = 4 * width * height then
    some { width := width, height := height, data := data }
  else none

/-- `load_icon`: decode the embedded image bytes; on success build the
icon from the RGBA data with `Icon::from_rgba(..).ok()`, on failure
return `None`.  `decoded` is the result of `stb_image::load_bytes` on the
embedded buffer. -/
def loadIcon (decoded : Except String StbImage) : Option Icon :=
  match decoded with
  | Except.ok img => iconFromRgba img.data img.width img.height
  | Except.error _ => none

/-- The window configuration handed to the window builder by `init`:
title, fixed logical size 1024×768, and the optional icon. -/
structure WindowConfig : Type where
  title : List Nat
  logicalSize : Nat × Nat
  icon : Option Icon
deriving DecidableEq

/-- The window-builder arguments produced by `init` from the title bytes
and the icon-decode result; `none` models the title `unwrap` panicking. -/
def initWindow (title : List Nat) (decoded : Except String StbImage) :
    Option WindowConfig :=
  (initTitle title).map (fun t =>
    { title := t, logicalSize := (1024, 768), icon := loadIcon decoded })

/-- A toy parser standing in for the standard `f64` parser when
instantiating theorems (which hold for any parser). -/
def parseToy : String → Except String Nat :=
  fun s => if s = "2" then Except.ok 2 else Except.error "invalid"

/-- A concrete 1×1 RGBA image standing in for the decoder output when
instantiating theorems. -/
def img1 : StbImage :=
  { width := 1, height := 1, data := [0, 0, 0, 0], rgba := rfl }

/-- Whether an effect is the platform adapter's `handle_event` call. -/
def isPlatformHandle : Effect → Bool
| Effect.platformHandleEvent => true
| _ => false

/-- Whether an effect is an `App::handle_event` call. -/
def isAppHandle : Effect → Bool
| Effect.appHandleEvent _ => true
| _ => false

/-- Whether an effect is an `App::update` call. -/
def isAppUpdate : Effect → Bool
| Effect.appUpdate _ => true
| _ => false

/-- Whether an effect is an `App::update` call receiving `run = false`. -/
def isFalseAppUpdate : Effect → Bool
| Effect.appUpdate false => true
| _ => false

/-- Whether an effect is the `App::process_drag_drop` call. -/
def isDragDrop : Effect → Bool
| Effect.processDragDrop => true
| _ => false

/-!  ## Theorems -/

/-- Naturals up to `2^24` are exactly representable in `f32`: the cast
leaves them unchanged. -/
theorem u32ToF32_eq_of_le {n : Nat} (h : n ≤ 2 ^ 24) : u32ToF32 n = n := by
  rcases Nat.lt_or_ge n (2 ^ 24) with hlt | hge
  · unfold u32ToF32
    rw [if_pos hlt]
  · have heq : n = 2 ^ 24 := Nat.le_antisymm h hge
    subst heq
    decide

/-- C1: In the `RedrawRequested` branch, if `App::update` sets the run
flag to `false` then loop control is set to `ControlFlow::Exit`, and the
same iteration still clears the render target, renders the draw data
through the renderer, and finishes (presents) the frame before the
callback returns; when `App::update` leaves the flag `true`, the branch
leaves loop control unchanged. -/
theorem redraw_run_flag_exit {α : Type} (ap : App α) (now : Nat)
    (w : World α) :
    ((ap.update w.app true).2 = false →
      (stepEvent ap now w GEvent.redrawRequested).1.loop.controlFlow
        = ControlFlow.Exit) ∧
    ((ap.update w.app true).2 = true →
      (stepEvent ap now w GEvent.redrawRequested).1.loop.controlFlow
        = w.loop.controlFlow) ∧
    (stepEvent ap now w GEvent.redrawRequested).2 = redrawTrace ∧
    Effect.clearColor ∈ (stepEvent ap now w GEvent.redrawRequested).2 ∧
    Effect.renderDrawData ∈ (stepEvent ap now w GEvent.redrawRequested).2 ∧
    Effect.finishFrame ∈ (stepEvent ap now w GEvent.redrawRequested).2 := by
  refine ⟨fun h => ?_, fun h => ?_, rfl, ?_, ?_, ?_⟩
  · simp [stepEvent, h]
  · simp [stepEvent, h]
  · show Effect.clearColor ∈ redrawTrace
    decide
  · show Effect.renderDrawData ∈ redrawTrace
    decide
  · show Effect.finishFrame ∈ redrawTrace
    decide

/-- Witness for C1: instantiation at an `App` that clears the flag and at
one that keeps it. -/
theorem redraw_run_flag_exit_witness :
    (stepEvent quitApp 0 world0 GEvent.redrawRequested).1.loop.controlFlow
      = ControlFlow.Exit ∧
    (stepEvent idleApp 0 world0 GEvent.redrawRequested).1.loop.controlFlow
      = world0.loop.controlFlow ∧
    (stepEvent quitApp 0 world0 GEvent.redrawRequested).2 = redrawTrace :=
  ⟨(redraw_run_flag_exit quitApp 0 world0).1 rfl,
   (redraw_run_flag_exit idleApp 0 world0).2.1 rfl,
   (redraw_run_flag_exit quitApp 0 world0).2.2.1⟩

/-- C2: On an event reaching the wildcard arm, `App::handle_event` is
called first; if it returns `true` the platform adapter's `handle_event`
is not called for that event, and if it returns `false` the adapter's
`handle_event` is called exactly once for that event. -/
theorem other_event_delegation {α : Type} (ap : App α) (now : Nat)
    (w : World α) (p : Nat) :
    (stepEvent ap now w (GEvent.other p)).2.head?
      = some (Effect.appHandleEvent (ap.handleEvent w.app p).2) ∧
    ((ap.handleEvent w.app p).2 = true →
      (stepEvent ap now w (GEvent.other p)).2
        = [Effect.appHandleEvent true]) ∧
    ((ap.handleEvent w.app p).2 = false →
      (stepEvent ap now w (GEvent.other p)).2
        = [Effect.appHandleEvent false, Effect.platformHandleEvent]) ∧
    (stepEvent ap now w (GEvent.other p)).2.countP isPlatformHandle
      = (if (ap.handleEvent w.app p).2 then 0 else 1) ∧
    (stepEvent ap now w (GEvent.other p)).2.countP isAppHandle = 1 := by
  cases h : (ap.handleEvent w.app p).2 <;>
    simp [stepEvent, h, List.countP_cons, isPlatformHandle, isAppHandle]

/-- Witness for C2: instantiation at an `App` that consumes the event and
at one that declines it. -/
theorem other_event_delegation_witness :
    (stepEvent quitApp 0 world0 (GEvent.other 5)).2
      = [Effect.appHandleEvent true] ∧
    (stepEvent idleApp 0 world0 (GEvent.other 5)).2
      = [Effect.appHandleEvent false, Effect.platformHandleEvent] :=
  ⟨(other_event_delegation quitApp 0 world0 5).2.1 rfl,
   (other_event_delegation idleApp 0 world0 5).2.2.1 rfl⟩

/-- C5: The close-request branch sets loop control to `ControlFlow::Exit`
performing no external call, and the exit state is terminal: the host
driver dispatches no further event, so no redraw processing (indeed no
effect at all) occurs afterwards. -/
theorem close_request_exit {α : Type} (ap : App α) (now : Nat)
    (w : World α) (evs : List (Nat × GEvent)) :
    (stepEvent ap now w GEvent.closeRequested).1.loop.controlFlow
      = ControlFlow.Exit ∧
    (stepEvent ap now w GEvent.closeRequested).2 = [] ∧
    (runEvents ap (stepEvent ap now w GEvent.closeRequested).1 evs).2
      = [] ∧
    (runEvents ap (stepEvent ap now w GEvent.closeRequested).1 evs).1
      = (stepEvent ap now w GEvent.closeRequested).1 := by
  refine ⟨rfl, rfl, ?_, ?_⟩ <;> cases evs <;> simp [runEvents, stepEvent]

/-- C7: In every `RedrawRequested` iteration, `App::process_drag_drop` is
called exactly once, as the last external call of the branch — after
`prepare_render`, `renderer.render` and `target.finish`, and after (not
before) `App::update`. -/
theorem redraw_drag_drop_order {α : Type} (ap : App α) (now : Nat)
    (w : World α) :
    (stepEvent ap now w GEvent.redrawRequested).2
      = [Effect.newFrame, Effect.appUpdate true, Effect.clearColor,
         Effect.prepareRender, Effect.renderDrawData, Effect.finishFrame,
         Effect.processDragDrop] ∧
    (stepEvent ap now w GEvent.redrawRequested).2.countP isDragDrop = 1 ∧
    (stepEvent ap now w GEvent.redrawRequested).2.getLast?
      = some Effect.processDragDrop := by
  refine ⟨rfl, ?_, ?_⟩
  · show redrawTrace.countP isDragDrop = 1
    decide
  · show redrawTrace.getLast? = some Effect.processDragDrop
    decide

/-- C9: The run flag passed to `App::update` is freshly initialised to
`true` in every `RedrawRequested` iteration: whatever events were
processed before, the redraw trace contains exactly one `App::update`
call, it receives `true`, and no `App::update` call ever receives
`false`. -/
theorem redraw_run_flag_fresh {α : Type} (ap : App α) (w : World α)
    (evs : List (Nat × GEvent)) (now : Nat) :
    (stepEvent ap now (runEvents ap w evs).1 GEvent.redrawRequested).2.countP
        isAppUpdate = 1 ∧
    (stepEvent ap now (runEvents ap w evs).1 GEvent.redrawRequested).2.countP
        isFalseAppUpdate = 0 ∧
    Effect.appUpdate true
      ∈ (stepEvent ap now (runEvents ap w evs).1 GEvent.redrawRequested).2 := by
  refine ⟨?_, ?_, ?_⟩
  · show redrawTrace.countP isAppUpdate = 1
    decide
  · show redrawTrace.countP isFalseAppUpdate = 0
    decide
  · show Effect.appUpdate true ∈ redrawTrace
    decide

/-- Counterexample for C6 as stated: dimensions are `u32` and the source
stores `new_size.width as f32`; at width `2^24 + 1 = 16777217` the cast
rounds to `16777216`, so the recorded display size is not exactly
`(W, H)`. -/
theorem resize_exact_cex :
    (stepEvent idleApp 0 world0
        (GEvent.resized 16777217 768)).1.loop.displaySize ≠ (16777217, 768) ∧
    (stepEvent idleApp 0 world0
        (GEvent.resized 16777217 768)).1.loop.displaySize
      = (16777216, 768) := by
  constructor <;> decide

/-- C6 amended: the resize branch sets the recorded display size to the
`f32` casts of the new width and height and changes nothing else (no
external call, and loop control, last-frame instant, delta time and app
state are untouched); the recorded size equals `(W, H)` exactly whenever
both dimensions are at most `2^24`. -/
theorem resize_display_size_amended {α : Type} (ap : App α) (now : Nat)
    (w : World α) (wd ht : Nat) :
    (stepEvent ap now w (GEvent.resized wd ht)).1
      = { w with loop := { w.loop with
            displaySize := (u32ToF32 wd, u32ToF32 ht) } } ∧
    (stepEvent ap now w (GEvent.resized wd ht)).2 = [] ∧
    (wd ≤ 2 ^ 24 → ht ≤ 2 ^ 24 →
      (stepEvent ap now w (GEvent.resized wd ht)).1.loop.displaySize
        = (wd, ht)) := by
  refine ⟨rfl, rfl, fun h1 h2 => ?_⟩
  show (u32ToF32 wd, u32ToF32 ht) = (wd, ht)
  rw [u32ToF32_eq_of_le h1, u32ToF32_eq_of_le h2]

/-- Witness for C6 amended: a concrete resize to 800×600. -/
theorem resize_display_size_witness :
    (stepEvent idleApp 0 world0 (GEvent.resized 800 600)).1.loop.displaySize
      = (800, 600) :=
  (resize_display_size_amended idleApp 0 world0 800 600).2.2
    (by decide) (by decide)

/-! ### Splitting valid UTF-8 at the path separator -/

theorem splitSep_ne_nil (sep : Nat) (l : List Nat) : splitSep sep l ≠ [] := by
  cases l with
  | nil => simp [splitSep]
  | cons b rest =>
      simp only [splitSep]
      by_cases h : b = sep
      · simp [h]
      · rw [if_neg h]
        cases hsp : splitSep sep rest <;> simp

theorem splitSep_exists (sep : Nat) (l : List Nat) :
    ∃ p ps, splitSep sep l = p :: ps := by
  cases hsp : splitSep sep l with
  | nil => exact absurd hsp (splitSep_ne_nil sep l)
  | cons p ps => exact ⟨p, ps, rfl⟩

theorem splitSep_cons_eq {sep b : Nat} (h : ¬ b = sep) {l : List Nat}
    {p : List Nat} {ps : List (List Nat)} (hl : splitSep sep l = p :: ps) :
    splitSep sep (b :: l) = (b :: p) :: ps := by
  simp only [splitSep]
  rw [if_neg h, hl]

theorem splitSep_of_not_mem {sep : Nat} {l : List Nat} (h : ¬ sep ∈ l) :
    splitSep sep l = [l] := by
  induction l with
  | nil => simp [splitSep]
  | cons b rest ih =>
      have hb : ¬ b = sep := fun hb => h (hb ▸ List.mem_cons_self b rest)
      have hrest : ¬ sep ∈ rest := fun hm => h (List.mem_cons_of_mem b hm)
      exact splitSep_cons_eq hb (ih hrest)

theorem contB_ge {c : Nat} (h : contB c = true) : 0x80 ≤ c := by
  simp only [contB, Bool.and_eq_true, decide_eq_true_eq] at h
  exact h.1

theorem second3_ge {b c : Nat} (h : second3 b c = true) : 0x80 ≤ c := by
  simp only [second3, contB, Bool.or_eq_true, Bool.and_eq_true,
    decide_eq_true_eq, beq_iff_eq] at h
  rcases h with h | h | h | h <;> omega

theorem second4_ge {b c : Nat} (h : second4 b c = true) : 0x80 ≤ c := by
  simp only [second4, contB, Bool.or_eq_true, Bool.and_eq_true,
    decide_eq_true_eq, beq_iff_eq] at h
  rcases h with h | h | h <;> omega

/-- Every piece produced by splitting a valid UTF-8 byte sequence at the
ASCII separator `/` (byte 47) is itself valid UTF-8: 47 only occurs as a
complete one-byte character, never inside a multi-byte sequence. -/
theorem validUtf8_splitSep :
    ∀ (n : Nat) (l : List Nat), l.length ≤ n → validUtf8 l = true →
      ∀ p ∈ splitSep 47 l, validUtf8 p = true := by
  intro n
  induction n with
  | zero =>
      intro l hl _ p hp
      cases l with
      | nil =>
          simp [splitSep] at hp
          subst hp
          rfl
      | cons b rest => simp at hl
  | succ n ih =>
      intro l hl hv p hp
      cases l with
      | nil =>
          simp [splitSep] at hp
          subst hp
          rfl
      | cons b rest =>
          have hlen : rest.length ≤ n := by
            simp only [List.length_cons] at hl
            omega
          by_cases hsep : b = 47
          · -- a separator byte: the head piece is empty
            have hv2 : validUtf8 rest = true := by
              rw [validUtf8.eq_def] at hv
              simp only at hv
              rw [if_pos (by omega : b ≤ 0x7F)] at hv
              exact hv
            rw [splitSep, if_pos hsep] at hp
            rcases List.mem_cons.mp hp with rfl | hp2
            · rfl
            · exact ih rest hlen hv2 p hp2
          · by_cases hb : b ≤ 0x7F
            · -- one-byte character other than the separator
              have hv2 : validUtf8 rest = true := by
                rw [validUtf8.eq_def] at hv
                simp only at hv
                rwa [if_pos hb] at hv
              obtain ⟨p0, ps, hsp⟩ := splitSep_exists 47 rest
              rw [splitSep_cons_eq hsep hsp] at hp
              rcases List.mem_cons.mp hp with rfl | hp2
              · have hp0 : validUtf8 p0 = true :=
                  ih rest hlen hv2 p0 (by rw [hsp]; exact List.mem_cons_self p0 ps)
                rw [validUtf8.eq_def]
                simp only
                rwa [if_pos hb]
              · exact ih rest hlen hv2 p (by rw [hsp]; exact List.mem_cons_of_mem p0 hp2)
            · -- a multi-byte character: no following byte is the separator
              cases rest with
              | nil =>
                  exfalso
                  rw [validUtf8.eq_def] at hv
                  simp only at hv
                  rw [if_neg hb] at hv
                  exact Bool.false_ne_true hv
              | cons c rest2 =>
                  rw [validUtf8.eq_def] at hv
                  simp only at hv
                  rw [if_neg hb] at hv
                  by_cases h2 : (0xC2 ≤ b && b ≤ 0xDF && contB c) = true
                  · -- two-byte character
                    rw [if_pos h2] at hv
                    have hc47 : ¬ c = 47 := by
                      have h2' := h2
                      simp only [Bool.and_eq_true] at h2'
                      have := contB_ge h2'.2
                      omega
                    have hlen2 : rest2.length ≤ n := by
                      simp only [List.length_cons] at hl
                      omega
                    obtain ⟨p0, ps, hsp⟩ := splitSep_exists 47 rest2
                    rw [splitSep_cons_eq hsep (splitSep_cons_eq hc47 hsp)] at hp
                    rcases List.mem_cons.mp hp with rfl | hp2
                    · have hp0 : validUtf8 p0 = true :=
                        ih rest2 hlen2 hv p0
                          (by rw [hsp]; exact List.mem_cons_self p0 ps)
                      rw [validUtf8.eq_def]
                      simp only
                      rw [if_neg hb, if_pos h2]
                      exact hp0
                    · exact ih rest2 hlen2 hv p
                        (by rw [hsp]; exact List.mem_cons_of_mem p0 hp2)
                  · rw [if_neg h2] at hv
                    cases rest2 with
                    | nil => exact absurd hv (by simp)
                    | cons d rest3 =>
                        simp only at hv
                        by_cases h3 :
                            (0xE0 ≤ b && b ≤ 0xEF && second3 b c && contB d)
                              = true
                        · -- three-byte character
                          rw [if_pos h3] at hv
                          have h3' := h3
                          simp only [Bool.and_eq_true] at h3'
                          have hc47 : ¬ c = 47 := by
                            have := second3_ge h3'.1.2
                            omega
                          have hd47 : ¬ d = 47 := by
                            have := contB_ge h3'.2
                            omega
                          have hlen3 : rest3.length ≤ n := by
                            simp only [List.length_cons] at hl
                            omega
                          obtain ⟨p0, ps, hsp⟩ := splitSep_exists 47 rest3
                          rw [splitSep_cons_eq hsep (splitSep_cons_eq hc47
                            (splitSep_cons_eq hd47 hsp))] at hp
                          rcases List.mem_cons.mp hp with rfl | hp2
                          · have hp0 : validUtf8 p0 = true :=
                              ih rest3 hlen3 hv p0
                                (by rw [hsp]; exact List.mem_cons_self p0 ps)
                            rw [validUtf8.eq_def]
                            simp only
                            rw [if_neg hb, if_neg h2, if_pos h3]
                            exact hp0
                          · exact ih rest3 hlen3 hv p
                              (by rw [hsp]; exact List.mem_cons_of_mem p0 hp2)
                        · rw [if_neg h3] at hv
                          cases rest3 with
                          | nil => exact absurd hv (by simp)
                          | cons e rest4 =>
                              simp only at hv
                              by_cases h4 :
                                  (0xF0 ≤ b && b ≤ 0xF4 && second4 b c
                                    && contB d && contB e) = true
                              · -- four-byte character
                                rw [if_pos h4] at hv
                                have h4' := h4
                                simp only [Bool.and_eq_true] at h4'
                                have hc47 : ¬ c = 47 := by
                                  have := second4_ge h4'.1.1.2
                                  omega
                                have hd47 : ¬ d = 47 := by
                                  have := contB_ge h4'.1.2
                                  omega
                                have he47 : ¬ e = 47 := by
                                  have := contB_ge h4'.2
                                  omega
                                have hlen4 : rest4.length ≤ n := by
                                  simp only [List.length_cons] at hl
                                  omega
                                obtain ⟨p0, ps, hsp⟩ := splitSep_exists 47 rest4
                                rw [splitSep_cons_eq hsep (splitSep_cons_eq hc47
                                  (splitSep_cons_eq hd47
                                    (splitSep_cons_eq he47 hsp)))] at hp
                                rcases List.mem_cons.mp hp with rfl | hp2
                                · have hp0 : validUtf8 p0 = true :=
                                    ih rest4 hlen4 hv p0
                                      (by rw [hsp];
                                          exact List.mem_cons_self p0 ps)
                                  rw [validUtf8.eq_def]
                                  simp only
                                  rw [if_neg hb, if_neg h2, if_neg h3,
                                    if_pos h4]
                                  exact hp0
                                · exact ih rest4 hlen4 hv p
                                    (by rw [hsp];
                                        exact List.mem_cons_of_mem p0 hp2)
                              · rw [if_neg h4] at hv
                                exact absurd hv (by simp)

theorem validUtf8_of_mem_splitSep {l p : List Nat} (hv : validUtf8 l = true)
    (hp : p ∈ splitSep 47 l) : validUtf8 p = true :=
  validUtf8_splitSep l.length l (Nat.le_refl _) hv p hp

/-- The bytes returned by `Path::file_name` are a piece of the input
between separators, hence valid UTF-8 whenever the input is. -/
theorem validUtf8_fileName {l f : List Nat} (hv : validUtf8 l = true)
    (hf : fileName l = some f) : validUtf8 f = true := by
  unfold fileName at hf
  cases hgl : (pathParts l).getLast? with
  | none =>
      rw [hgl] at hf
      exact absurd hf (by simp)
  | some q =>
      rw [hgl] at hf
      simp only at hf
      by_cases hq : (q == [46, 46]) = true
      · rw [if_pos hq] at hf
        exact absurd hf (by simp)
      · rw [if_neg hq] at hf
        have hqf : q = f := by injection hf
        subst hqf
        have hmem : q ∈ pathParts l := by
          obtain ⟨hne, heq⟩ :=
            List.mem_getLast?_eq_getLast (Option.mem_def.mpr hgl)
          rw [heq]
          exact List.getLast_mem hne
        exact validUtf8_of_mem_splitSep hv (List.mem_of_mem_filter hmem)

/-- When the last path component exists and is a normal name, the title
is that component. -/
theorem initTitle_eq_of_last {l c : List Nat} (hv : validUtf8 l = true)
    (hgl : (pathParts l).getLast? = some c) (hne : ¬ c = [46, 46]) :
    initTitle l = some c := by
  have hfn : fileName l = some c := by
    unfold fileName
    rw [hgl]
    simp only
    rw [if_neg (fun h => hne (eq_of_beq h))]
  unfold initTitle
  rw [hfn]
  simp only
  unfold osstrToStr
  rw [if_pos (validUtf8_fileName hv hfn)]

/-- When the path has no `Normal`/`ParentDir` component at all, the title
is the input unchanged. -/
theorem initTitle_self_of_none {l : List Nat}
    (hgl : (pathParts l).getLast? = none) : initTitle l = some l := by
  have hfn : fileName l = none := by
    unfold fileName
    rw [hgl]
  unfold initTitle
  rw [hfn]

/-- When the last component is `".."`, `file_name` is `None` and the
title is the input unchanged. -/
theorem initTitle_self_of_dotdot {l : List Nat}
    (hgl : (pathParts l).getLast? = some [46, 46]) : initTitle l = some l := by
  have hfn : fileName l = none := by
    unfold fileName
    rw [hgl]
    simp only
    rw [if_pos (by decide)]
  unfold initTitle
  rw [hfn]

/-- For valid UTF-8 input the title computation always succeeds: the
`unwrap` path is only taken on a valid piece of the input. -/
theorem initTitle_isSome {l : List Nat} (hv : validUtf8 l = true) :
    ∃ t, initTitle l = some t := by
  cases hf : fileName l with
  | none =>
      refine ⟨l, ?_⟩
      unfold initTitle
      rw [hf]
  | some f =>
      refine ⟨f, ?_⟩
      unfold initTitle
      rw [hf]
      simp only
      unfold osstrToStr
      rw [if_pos (validUtf8_fileName hv hf)]

/-- A string without separators maps to itself, whatever it is. -/
theorem initTitle_no_sep {l : List Nat} (hv : validUtf8 l = true)
    (h47 : ¬ 47 ∈ l) : initTitle l = some l := by
  have hps : splitSep 47 l = [l] := splitSep_of_not_mem h47
  by_cases hp : (!(l.isEmpty || l == [46])) = true
  · have hparts : pathParts l = [l] := by
      unfold pathParts
      rw [hps, List.filter_cons, if_pos hp]
      rfl
    by_cases hdd : l = [46, 46]
    · refine initTitle_self_of_dotdot ?_
      rw [hparts, hdd]
      rfl
    · exact initTitle_eq_of_last hv (by rw [hparts]; rfl) hdd
  · have hparts : pathParts l = [] := by
      unfold pathParts
      rw [hps]
      simp only [List.filter_cons, List.filter_nil]
      rw [if_neg hp]
    refine initTitle_self_of_none ?_
    rw [hparts]
    rfl

/-- Counterexample for C3 as stated: the path-like input `"a/.."` has
final path component `".."`, but Rust `Path::file_name` yields `None`
there, so the title `init` uses is the whole input, not that
component. -/
theorem title_final_component_cex :
    47 ∈ [97, 47, 46, 46] ∧
    specFinalComponent [97, 47, 46, 46] = some [46, 46] ∧
    initTitle [97, 47, 46, 46] = some [97, 47, 46, 46] ∧
    initTitle [97, 47, 46, 46] ≠ some [46, 46] := by
  refine ⟨by decide, by decide, by decide, by decide⟩

/-- C3 amended: when the final path component exists and is a normal name
(not `".."`), the title equals that component; when there is no such
component — the component list is empty or ends in `".."` — the title is
the input unchanged; in particular a bare string with no path separators
is used unchanged. -/
theorem title_derivation_amended (l c : List Nat) (hv : validUtf8 l = true) :
    (specFinalComponent l = some c → ¬ c = [46, 46] →
      initTitle l = some c) ∧
    (specFinalComponent l = none → initTitle l = some l) ∧
    (specFinalComponent l = some [46, 46] → initTitle l = some l) ∧
    (¬ 47 ∈ l → initTitle l = some l) := by
  refine ⟨fun hgl hne => ?_, fun hgl => ?_, fun hgl => ?_, fun h47 => ?_⟩
  · exact initTitle_eq_of_last hv hgl hne
  · exact initTitle_self_of_none hgl
  · exact initTitle_self_of_dotdot hgl
  · exact initTitle_no_sep hv h47

/-- Witness for C3 amended: `"src/main.rs"` is titled `"main.rs"`, and
the bare string `"search"` is titled `"search"`. -/
theorem title_derivation_amended_witness :
    initTitle [115, 114, 99, 47, 109, 97, 105, 110, 46, 114, 115]
      = some [109, 97, 105, 110, 46, 114, 115] ∧
    initTitle [115, 101, 97, 114, 99, 104]
      = some [115, 101, 97, 114, 99, 104] :=
  ⟨(title_derivation_amended [115, 114, 99, 47, 109, 97, 105, 110, 46, 114, 115]
      [109, 97, 105, 110, 46, 114, 115] (by decide)).1 (by decide) (by decide),
   (title_derivation_amended [115, 101, 97, 114, 99, 104] []
      (by decide)).2.2.2 (by decide)⟩

/-- C10: the `unwrap` in `init`'s title derivation never panics: for a
`&str` input (valid UTF-8 bytes), whenever `Path::file_name` returns
`Some`, the returned `OsStr` converts back to a valid UTF-8 string, so
the title computation is total. -/
theorem title_unwrap_total (l : List Nat) (hv : validUtf8 l = true) :
    (∀ f, fileName l = some f → osstrToStr f = some f) ∧
    ∃ t, initTitle l = some t := by
  constructor
  · intro f hf
    unfold osstrToStr
    rw [if_pos (validUtf8_fileName hv hf)]
  · exact initTitle_isSome hv

/-- Witness for C10: the title computation succeeds on the concrete
input `"src/main.rs"`. -/
theorem title_unwrap_total_witness :
    ∃ t, initTitle [115, 114, 99, 47, 109, 97, 105, 110, 46, 114, 115]
      = some t :=
  (title_unwrap_total [115, 114, 99, 47, 109, 97, 105, 110, 46, 114, 115]
    (by decide)).2

/-- C4: the DPI override — for any parser outcome: when the environment
variable is set and parses, the mode is a locked scale factor equal to
the parsed value; when it is set and does not parse, `init` aborts
(`panic!`, modelled as `Except.error`); when it is absent, the default
automatic-detection mode is used and execution continues. -/
theorem dpi_override_parsing {ε α : Type} (parse : String → Except ε α) :
    (∀ s f, parse s = Except.ok f →
      dpiModeFromEnv (some s) parse = Except.ok (HiDpiMode.Locked f)) ∧
    (∀ s e, parse s = Except.error e →
      dpiModeFromEnv (some s) parse = Except.error e) ∧
    @dpiModeFromEnv ε α none parse = Except.ok HiDpiMode.Default := by
  refine ⟨fun s f h => ?_, fun s e h => ?_, rfl⟩
  · unfold dpiModeFromEnv
    simp only
    rw [h]
  · unfold dpiModeFromEnv
    simp only
    rw [h]

/-- Witness for C4: a parser that accepts exactly `"2"`. -/
theorem dpi_override_parsing_witness :
    dpiModeFromEnv (some "2") parseToy = Except.ok (HiDpiMode.Locked 2) ∧
    dpiModeFromEnv (some "x") parseToy = Except.error "invalid" ∧
    @dpiModeFromEnv String Nat none parseToy
      = Except.ok HiDpiMode.Default :=
  ⟨(dpi_override_parsing parseToy).1 "2" 2 rfl,
   (dpi_override_parsing parseToy).2.1 "x" "invalid" rfl,
   (dpi_override_parsing parseToy).2.2⟩

/-- C8: if decoding the embedded icon fails, `load_icon` returns `None`
and `init` still builds the window (with no icon, no abort); if decoding
succeeds, the window is built with the decoded RGBA icon. -/
theorem icon_decode_soft_fail (t : List Nat) (hv : validUtf8 t = true)
    (e : String) (img : StbImage) :
    loadIcon (Except.error e) = none ∧
    (∃ cfg, initWindow t (Except.error e) = some cfg ∧ cfg.icon = none) ∧
    loadIcon (Except.ok img)
      = some { width := img.width, height := img.height, data := img.data } ∧
    (∃ cfg, initWindow t (Except.ok img) = some cfg ∧
      cfg.icon
        = some { width := img.width, height := img.height,
                 data := img.data }) := by
  obtain ⟨tt, htt⟩ := initTitle_isSome hv
  have hok : loadIcon (Except.ok img)
      = some { width := img.width, height := img.height,
               data := img.data } := by
    unfold loadIcon iconFromRgba
    simp only
    rw [if_pos img.rgba]
  refine ⟨rfl,
    ⟨{ title := tt, logicalSize := (1024, 768), icon := none }, ?_, rfl⟩,
    hok,
    ⟨{ title := tt, logicalSize := (1024, 768),
       icon := some { width := img.width, height := img.height,
                      data := img.data } }, ?_, rfl⟩⟩
  · unfold initWindow
    rw [htt]
    rfl
  · unfold initWindow
    rw [htt, Option.map_some', hok]

/-- Witness for C8: failure on a decode error and success on a concrete
1×1 image. -/
theorem icon_decode_soft_fail_witness :
    loadIcon (Except.error "bad") = none ∧
    loadIcon (Except.ok img1)
      = some { width := 1, height := 1, data := [0, 0, 0, 0] } := by
  have h := icon_decode_soft_fail [115, 101, 97, 114, 99, 104]
    (by decide) "bad" img1
  exact ⟨h.1, h.2.2.1⟩
